import Mathlib

/-!
Verification of the Flowport client-side knowledge engine: text chunking,
lexical scoring, and top-K retrieval over a browser-persisted store.
Strings are modelled as lists of characters; scores as rational numbers;
the ambient id generator and clock are passed in as explicit parameters.
-/

namespace Flowport

/-- Strings are modelled as lists of characters. -/
abbrev Str := List Char

/-- ASCII whitespace, the model of the characters removed by trim. -/
def wsChar (c : Char) : Bool :=
  c.toNat = 32 || c.toNat = 9 || c.toNat = 10 || c.toNat = 13 || c.toNat = 11 || c.toNat = 12

/-- Lowercasing of a single character (ASCII range). -/
def lcChar (c : Char) : Char :=
  if 65 ≤ c.toNat ∧ c.toNat ≤ 90 then Char.ofNat (c.toNat + 32) else c

/-- Model of value.toLowerCase(). -/
def lower (l : Str) : Str := l.map lcChar

/-- Model of String.prototype.trim: drop whitespace from both ends. -/
def trim (l : Str) : Str :=
  ((l.dropWhile wsChar).reverse.dropWhile wsChar).reverse

/-- Lowercase ASCII letters and digits: the alphabet of the token regex. -/
def alnum (c : Char) : Bool :=
  (97 ≤ c.toNat && c.toNat ≤ 122) || (48 ≤ c.toNat && c.toNat ≤ 57)

/-- Maximal-run splitter behind the global alphanumeric-run match;
the accumulator holds the current run reversed. -/
def runsAux : Str → Str → List Str
  | [], cur => if cur.isEmpty then [] else [cur.reverse]
  | c :: t, cur =>
    if alnum c then runsAux t (c :: cur)
    else if cur.isEmpty then runsAux t [] else cur.reverse :: runsAux t []

/-- Model of tokenize: lowercase, then collect maximal alphanumeric runs. -/
def tokenize (value : Str) : List Str := runsAux (lower value) []

/-- Prefix test on character lists. -/
def isPrefixL : Str → Str → Bool
  | [], _ => true
  | _ :: _, [] => false
  | a :: as, b :: bs => a == b && isPrefixL as bs

/-- Model of String.prototype.includes: does the first list contain the
second as a contiguous substring? -/
def containsSub : Str → Str → Bool
  | [], pat => pat.isEmpty
  | c :: t, pat => isPrefixL pat (c :: t) || containsSub t pat

/-- Model of scoreChunk: substring bonus, token coverage, chunk coverage,
combined with weights 0.6, 0.3, 0.1. -/
def scoreChunk (query content : Str) : ℚ :=
  let queryText := trim (lower query)
  let bodyText := trim (lower content)
  if queryText = [] ∨ bodyText = [] then 0
  else
    let queryTokens := tokenize queryText
    let chunkTokens := tokenize bodyText
    if queryTokens = [] ∨ chunkTokens = [] then 0
    else
      let querySet := queryTokens.dedup
      let chunkSet := chunkTokens.dedup
      let shared := (querySet.filter (fun t => decide (t ∈ chunkSet))).length
      let tokenCoverage : ℚ := (shared : ℚ) / (querySet.length : ℚ)
      let chunkCoverage : ℚ := (shared : ℚ) / (chunkSet.length : ℚ)
      let substringBonus : ℚ := if containsSub bodyText queryText then 1 else 0
      substringBonus * (6 / 10) + tokenCoverage * (3 / 10) + chunkCoverage * (1 / 10)

structure KnowledgeDocumentChunk where
  id : Str
  content : Str
deriving DecidableEq

/-- Chunk identifiers: a generated id joined with the running counter. -/
def chunkId (gid : Str) (counter : Nat) : Str := gid ++ '-' :: (Nat.repr counter).toList

/-- CRLF and lone CR replaced by LF. -/
def normaliseCR : Str → Str
  | [] => []
  | '\r' :: '\n' :: t => '\n' :: normaliseCR t
  | '\r' :: t => '\n' :: normaliseCR t
  | c :: t => c :: normaliseCR t

/-- Model of normaliseNewlines: normalise line endings, then trim. -/
def normaliseNewlines (value : Str) : Str := trim (normaliseCR value)

/-- safeChunkSize: the requested size clamped to a minimum of 100. -/
def effectiveChunkSize (chunkSize : Int) : Int := max chunkSize 100

/-- safeOverlap: the requested overlap clamped into [0, safeChunkSize - 1]. -/
def effectiveOverlap (chunkSize chunkOverlap : Int) : Int :=
  min (max chunkOverlap 0) (effectiveChunkSize chunkSize - 1)

/-- step: the window advance, at least 1. -/
def chunkStep (chunkSize chunkOverlap : Int) : Int :=
  max 1 (effectiveChunkSize chunkSize - effectiveOverlap chunkSize chunkOverlap)

/-- The while-loop of chunkText, structurally recursive on a fuel argument.
The offset advances by step ≥ 1 on every iteration, so fuel equal to the
length of the text always outlasts the loop: when fuel reaches 0 the offset
has already reached or passed the end, exactly where the source loop stops. -/
def chunkLoop (gid s : Str) (size step : Nat) : Nat → Nat → Nat → List KnowledgeDocumentChunk
  | 0, _, _ => []
  | fuel + 1, index, counter =>
    if index < s.length then
      let slice := (s.drop index).take size
      let trimmed := trim slice
      if trimmed = [] then
        if s.length ≤ index + size then []
        else chunkLoop gid s size step fuel (index + step) counter
      else
        if s.length ≤ index + size then [⟨chunkId gid counter, trimmed⟩]
        else ⟨chunkId gid counter, trimmed⟩ :: chunkLoop gid s size step fuel (index + step) (counter + 1)
    else []

/-- Model of chunkText: normalise, slide a window of the effective size by
the effective step, trim each slice, keep the non-empty ones; fall back to a
single chunk holding the whole normalised content if nothing was emitted. -/
def chunkText (gid : Str) (content : Str) (chunkSize chunkOverlap : Int) :
    List KnowledgeDocumentChunk :=
  let sanitised := normaliseNewlines content
  if sanitised = [] then []
  else
    let size := (effectiveChunkSize chunkSize).toNat
    let step := (chunkStep chunkSize chunkOverlap).toNat
    let chunks := chunkLoop gid sanitised size step sanitised.length 0 0
    if chunks = [] then [⟨chunkId gid 0, sanitised⟩] else chunks

inductive KnowledgeBaseSource
  | user
  | prebuilt
deriving DecidableEq

/-- The metadata record attached to a stored document: the chunking
parameters used, plus the origin tag that file ingestion adds. -/
structure DocMetadata where
  chunk_size : Int
  chunk_overlap : Int
  origin : Option Str
deriving DecidableEq

structure StoredKnowledgeDocument where
  id : Str
  title : Str
  original_filename : Option Str
  media_type : Str
  size_bytes : Nat
  created_at : Str
  metadata : DocMetadata
  raw_content : Str
  chunk_size : Int
  chunk_overlap : Int
  chunks : List KnowledgeDocumentChunk
deriving DecidableEq

structure StoredKnowledgeBase where
  id : Str
  name : Str
  description : Option Str
  source : KnowledgeBaseSource
  created_at : Str
  updated_at : Str
  ready : Bool
  documents : List StoredKnowledgeDocument
deriving DecidableEq

/-- Document summary projection. -/
structure KnowledgeDocument where
  id : Str
  title : Str
  original_filename : Option Str
  media_type : Str
  size_bytes : Nat
  chunk_count : Nat
  created_at : Str
  metadata : DocMetadata
  file_available : Bool
deriving DecidableEq

structure KnowledgeBaseDetail where
  id : Str
  name : Str
  description : Option Str
  source : KnowledgeBaseSource
  document_count : Nat
  chunk_count : Nat
  created_at : Str
  updated_at : Str
  ready : Bool
  documents : List KnowledgeDocument
deriving DecidableEq

structure KnowledgeChunkMatch where
  chunk_id : Str
  score : ℚ
  content : Str
  document_id : Str
  document_title : Str
deriving DecidableEq

structure KnowledgeBaseQueryResponse where
  knowledge_base_id : Str
  query : Str
  «matches» : List KnowledgeChunkMatch
deriving DecidableEq

/-- The two error kinds raised by the store: unknown id and empty
required field. -/
inductive KBError
  | notFound
  | validation
deriving DecidableEq

abbrev Store := List StoredKnowledgeBase

/-- Model of estimateSize: UTF-8 byte length of the text. -/
def estimateSize (value : Str) : Nat := (value.map Char.utf8Size).sum

def findBase (store : Store) (id : Str) : Option StoredKnowledgeBase :=
  store.find? (fun base => base.id == id)

def toDocumentSummary (d : StoredKnowledgeDocument) : KnowledgeDocument :=
  { id := d.id, title := d.title, original_filename := d.original_filename,
    media_type := d.media_type, size_bytes := d.size_bytes,
    chunk_count := d.chunks.length, created_at := d.created_at,
    metadata := d.metadata, file_available := !d.raw_content.isEmpty }

def toDetail (base : StoredKnowledgeBase) : KnowledgeBaseDetail :=
  { id := base.id, name := base.name, description := base.description,
    source := base.source,
    document_count := base.documents.length,
    chunk_count := (base.documents.map (fun d => d.chunks.length)).sum,
    created_at := base.created_at, updated_at := base.updated_at,
    ready := base.ready,
    documents := base.documents.map toDocumentSummary }

/-- Model of body.description?.trim() with an empty result coalesced
to null. -/
def descOpt : Option Str → Option Str
  | none => none
  | some d => if trim d = [] then none else some (trim d)

def DEFAULT_CHUNK_SIZE : Int := 750

def DEFAULT_CHUNK_OVERLAP : Int := 50

/-- Model of createKnowledgeBase. The first component lists the successive
saveStore calls the operation performs; the freshly generated id and the
current timestamp are passed in explicitly. -/
def createKnowledgeBase (store : Store) (name : Str) (description : Option Str)
    (newId now : Str) : List Store × Except KBError KnowledgeBaseDetail :=
  let n := trim name
  if n = [] then ([], .error .validation)
  else
    let base : StoredKnowledgeBase :=
      { id := newId, name := n, description := descOpt description,
        source := .user, created_at := now, updated_at := now,
        ready := false, documents := [] }
    ([store ++ [base]], .ok (toDetail base))

/-- In-place mutation of the base found by findBase: replace the first base
with a matching id. -/
def updateFirstBase (store : Store) (id : Str)
    (f : StoredKnowledgeBase → StoredKnowledgeBase) : Store :=
  match store with
  | [] => []
  | b :: bs => if b.id == id then f b :: bs else b :: updateFirstBase bs id f

/-- Model of ingestText. -/
def ingestText (store : Store) (id : Str) (title content : Str)
    (chunkSizeOpt chunkOverlapOpt : Option Int) (newId gid now : Str) :
    List Store × Except KBError KnowledgeDocument :=
  match findBase store id with
  | none => ([], .error .notFound)
  | some _ =>
    let t := if trim title = [] then "Untitled".toList else trim title
    if trim content = [] then ([], .error .validation)
    else
      let chunkSize := max (chunkSizeOpt.getD DEFAULT_CHUNK_SIZE) 100
      let chunkOverlap := min (chunkOverlapOpt.getD DEFAULT_CHUNK_OVERLAP) (chunkSize - 1)
      let chunks := chunkText gid content chunkSize chunkOverlap
      let doc : StoredKnowledgeDocument :=
        { id := newId, title := t, original_filename := none,
          media_type := "text/plain".toList, size_bytes := estimateSize content,
          created_at := now,
          metadata := { chunk_size := chunkSize, chunk_overlap := chunkOverlap, origin := none },
          raw_content := content, chunk_size := chunkSize, chunk_overlap := chunkOverlap,
          chunks := chunks }
      let store2 := updateFirstBase store id (fun b =>
        { b with documents := b.documents ++ [doc], updated_at := now, ready := true })
      ([store2], .ok (toDocumentSummary doc))

/-- An uploaded file: its name, declared media type, byte size, and the
text extracted from it (none models a failed extraction). -/
structure FileInput where
  name : Str
  declaredType : Str
  size : Nat
  text : Option Str
deriving DecidableEq

/-- Strip the final dot-extension from a file name: remove a trailing dot
followed by one or more characters none of which is a dot or a slash. -/
def stripExt (name : Str) : Str :=
  let rev := name.reverse
  let seg := rev.takeWhile (fun c => decide (c ≠ '.') && decide (c ≠ '/'))
  let rest := rev.dropWhile (fun c => decide (c ≠ '.') && decide (c ≠ '/'))
  match seg, rest with
  | _ :: _, '.' :: _ => name.take (name.length - (seg.length + 1))
  | _, _ => name

/-- Model of ingestFile: unreadable content becomes a binary placeholder,
empty content an empty-file placeholder; neither is an error. -/
def ingestFile (store : Store) (id : Str) (file : FileInput)
    (chunkSizeOpt chunkOverlapOpt : Option Int) (newId gid now : Str) :
    List Store × Except KBError KnowledgeDocument :=
  match findBase store id with
  | none => ([], .error .notFound)
  | some _ =>
    let chunkSize := max (chunkSizeOpt.getD DEFAULT_CHUNK_SIZE) 100
    let chunkOverlap := min (chunkOverlapOpt.getD DEFAULT_CHUNK_OVERLAP) (chunkSize - 1)
    let content0 :=
      match file.text with
      | some t => t
      | none => "[Binary file: ".toList ++ file.name ++ "]".toList
    let content :=
      if trim content0 = [] then "[Empty file: ".toList ++ file.name ++ "]".toList
      else content0
    let chunks := chunkText gid content chunkSize chunkOverlap
    let title0 := stripExt file.name
    let title :=
      if title0 = [] then (if file.name = [] then "Untitled".toList else file.name)
      else title0
    let doc : StoredKnowledgeDocument :=
      { id := newId, title := title, original_filename := some file.name,
        media_type := if file.declaredType = [] then "text/plain".toList else file.declaredType,
        size_bytes := if file.size = 0 then estimateSize content else file.size,
        created_at := now,
        metadata := { chunk_size := chunkSize, chunk_overlap := chunkOverlap,
                      origin := some ("file-upload".toList) },
        raw_content := content, chunk_size := chunkSize, chunk_overlap := chunkOverlap,
        chunks := chunks }
    let store2 := updateFirstBase store id (fun b =>
      { b with documents := b.documents ++ [doc], updated_at := now, ready := true })
    ([store2], .ok (toDocumentSummary doc))

/-- A (document, chunk, score) triple produced while scoring a query. -/
structure ScoredEntry where
  doc : StoredKnowledgeDocument
  chunk : KnowledgeDocumentChunk
  score : ℚ
deriving DecidableEq

/-- Stable insertion into a list sorted by descending score. -/
def insertDesc (e : ScoredEntry) : List ScoredEntry → List ScoredEntry
  | [] => [e]
  | f :: fs => if f.score ≤ e.score then e :: f :: fs else f :: insertDesc e fs

/-- Stable sort by descending score, the model of the comparator
subtracting scores. -/
def sortDesc : List ScoredEntry → List ScoredEntry
  | [] => []
  | e :: es => insertDesc e (sortDesc es)

/-- top_k clamped into [1, 20], defaulting to 4 when absent. -/
def clampTopK (topK : Option Int) : Int := max 1 (min (topK.getD 4) 20)

/-- Model of queryKnowledgeBase. -/
def queryKnowledgeBase (store : Store) (id : Str) (queryRaw : Str)
    (topK : Option Int) : Except KBError KnowledgeBaseQueryResponse :=
  match findBase store id with
  | none => .error .notFound
  | some base =>
    let k := (clampTopK topK).toNat
    let query := trim queryRaw
    if query = [] then .ok { knowledge_base_id := id, query := query, «matches» := [] }
    else
      let scored := ((base.documents.map (fun d =>
          d.chunks.map (fun c => ⟨d, c, scoreChunk query c.content⟩))).flatten).filter
          (fun e => decide (0 < e.score))
      let sorted := sortDesc scored
      let found := (sorted.take k).map (fun e =>
        { chunk_id := e.chunk.id, score := e.score, content := e.chunk.content,
          document_id := e.doc.id, document_title := e.doc.title })
      .ok { knowledge_base_id := id, query := query, «matches» := found }

/-- A one-base, one-document, one-chunk sample store used to instantiate
proved properties on concrete data. -/
def sampleChunk : KnowledgeDocumentChunk :=
  ⟨"c1".toList, "The quick brown fox".toList⟩

def sampleDoc : StoredKnowledgeDocument :=
  { id := "d1".toList, title := "Doc".toList, original_filename := none,
    media_type := "text/plain".toList, size_bytes := 19,
    created_at := "2026-01-01T00:00:00Z".toList,
    metadata := { chunk_size := 200, chunk_overlap := 0, origin := none },
    raw_content := "The quick brown fox".toList, chunk_size := 200,
    chunk_overlap := 0, chunks := [sampleChunk] }

def sampleBase : StoredKnowledgeBase :=
  { id := "kb1".toList, name := "KB".toList, description := none,
    source := .user, created_at := "2026-01-01T00:00:00Z".toList,
    updated_at := "2026-01-01T00:00:00Z".toList, ready := true,
    documents := [sampleDoc] }

def sampleStore : Store := [sampleBase]

/-- Claim C7: for all requested chunk_size S and chunk_overlap O, the
effective chunk size is at least 100, the effective overlap lies in
[0, effective size), and the advance step is at least 1, so each loop
iteration makes progress and chunking terminates on every input. -/
theorem chunker_effective_params (S O : Int) :
    100 ≤ effectiveChunkSize S ∧
    0 ≤ effectiveOverlap S O ∧
    effectiveOverlap S O < effectiveChunkSize S ∧
    1 ≤ chunkStep S O := by
  simp only [effectiveChunkSize, effectiveOverlap, chunkStep]
  omega

lemma chunkLoop_content_ne (gid s : Str) (size step : Nat) :
    ∀ fuel index counter, ∀ ch ∈ chunkLoop gid s size step fuel index counter,
      ch.content ≠ [] := by
  intro fuel
  induction fuel with
  | zero =>
    intro index counter ch h
    simp [chunkLoop] at h
  | succ n ih =>
    intro index counter ch h
    simp only [chunkLoop] at h
    split at h
    · split at h
      · split at h
        · simp at h
        · exact ih _ _ ch h
      · split at h
        · rename_i htr _
          simp only [List.mem_singleton] at h
          subst h
          exact htr
        · rename_i htr _
          rcases List.mem_cons.mp h with h | h
          · subst h; exact htr
          · exact ih _ _ ch h
    · simp at h

lemma chunkText_mem_content_ne (gid content : Str) (S O : Int) :
    ∀ ch ∈ chunkText gid content S O, ch.content ≠ [] := by
  intro ch h
  simp only [chunkText] at h
  split at h
  · simp at h
  · rename_i hs
    split at h
    · simp only [List.mem_singleton] at h
      subst h
      exact hs
    · exact chunkLoop_content_ne _ _ _ _ _ _ _ ch h

/-- Claim C8: chunkText returns the empty sequence exactly when the
normalised content is empty, and every returned chunk has non-empty
content. -/
theorem chunker_nonempty (gid content : Str) (S O : Int) :
    (chunkText gid content S O = [] ↔ normaliseNewlines content = []) ∧
    (∀ ch ∈ chunkText gid content S O, ch.content ≠ []) := by
  refine ⟨?_, chunkText_mem_content_ne gid content S O⟩
  simp only [chunkText]
  split
  · rename_i hs; simpa using hs
  · rename_i hs
    split
    · simpa using hs
    · rename_i hloop
      constructor
      · intro h; exact absurd h hloop
      · intro h; exact absurd h hs

/-- Claim C8 witness: a concrete ingestion produces a chunk with non-empty
content, and a whitespace-only text chunks to the empty sequence. -/
theorem chunker_nonempty_witness :
    (⟨("kb".toList) ++ '-' :: "0".toList, "hello world".toList⟩ ∈
        chunkText ("kb".toList) ("hello world".toList) 200 0) ∧
    (⟨("kb".toList) ++ '-' :: "0".toList, "hello world".toList⟩ :
        KnowledgeDocumentChunk).content ≠ [] := by
  refine ⟨by decide, ?_⟩
  exact (chunker_nonempty ("kb".toList) ("hello world".toList) 200 0).2 _ (by decide)

/-- Claim C3 counterexample: chunking the fox sentence with chunk_size 10
and overlap 0 does not produce 5 chunks: the size is clamped up to 100 and
the whole 43-character string fits in a single window. -/
theorem chunk_scenario_cex :
    ¬ (chunkText ("kb".toList)
        ("The quick brown fox jumps over the lazy dog".toList) 10 0).length = 5 := by
  decide

/-- Claim C3 amended: chunking the fox sentence with chunk_size 10 and
overlap 0 yields exactly one chunk whose content is the whole string, since
the requested size is clamped to the minimum of 100 and the string has only
43 characters; the single chunk trivially covers the string in order. -/
theorem chunk_scenario_amended :
    (chunkText ("kb".toList)
        ("The quick brown fox jumps over the lazy dog".toList) 10 0).map
      (fun ch => ch.content) =
      ["The quick brown fox jumps over the lazy dog".toList] := by
  decide

lemma shared_le_querySet (qs cs : List Str) :
    ((qs.dedup.filter (fun t => decide (t ∈ cs))).length ≤ qs.dedup.length) :=
  List.length_filter_le _ _

lemma shared_le_chunkSet (qs cs : List Str) :
    ((qs.dedup.filter (fun t => decide (t ∈ cs.dedup))).length ≤ cs.dedup.length) := by
  apply List.Subperm.length_le
  apply List.subperm_of_subset
  · exact (List.filter_sublist _).nodup (List.nodup_dedup qs)
  · intro x hx
    exact of_decide_eq_true ((List.mem_filter.mp hx).2)

/-- Claim C2: for every query and chunk content, the score lies in [0, 1]. -/
theorem score_bounds (q c : Str) : 0 ≤ scoreChunk q c ∧ scoreChunk q c ≤ 1 := by
  simp only [scoreChunk]
  split
  · norm_num
  · split
    · norm_num
    · rename_i hout hin
      have hq : tokenize (trim (lower q)) ≠ [] := fun h => hin (Or.inl h)
      have hc : tokenize (trim (lower c)) ≠ [] := fun h => hin (Or.inr h)
      set qs := (tokenize (trim (lower q))).dedup with hqs
      set cs := (tokenize (trim (lower c))).dedup with hcs
      have hqlen : 0 < qs.length := by
        rw [List.length_pos]
        intro h
        exact hq ((List.dedup_eq_nil _).mp h)
      have hclen : 0 < cs.length := by
        rw [List.length_pos]
        intro h
        exact hc ((List.dedup_eq_nil _).mp h)
      set shared := (qs.filter (fun t => decide (t ∈ cs))).length with hsh
      have h1 : shared ≤ qs.length := List.length_filter_le _ _
      have h2 : shared ≤ cs.length := shared_le_chunkSet _ _
      have hqpos : (0 : ℚ) < qs.length := by exact_mod_cast hqlen
      have hcpos : (0 : ℚ) < cs.length := by exact_mod_cast hclen
      have htc0 : (0 : ℚ) ≤ (shared : ℚ) / (qs.length : ℚ) :=
        div_nonneg (Nat.cast_nonneg _) (le_of_lt hqpos)
      have hcc0 : (0 : ℚ) ≤ (shared : ℚ) / (cs.length : ℚ) :=
        div_nonneg (Nat.cast_nonneg _) (le_of_lt hcpos)
      have htc1 : (shared : ℚ) / (qs.length : ℚ) ≤ 1 := by
        rw [div_le_one hqpos]
        exact_mod_cast h1
      have hcc1 : (shared : ℚ) / (cs.length : ℚ) ≤ 1 := by
        rw [div_le_one hcpos]
        exact_mod_cast h2
      have hb0 : (0 : ℚ) ≤ (if containsSub (trim (lower c)) (trim (lower q)) then (1 : ℚ) else 0) := by
        split <;> norm_num
      have hb1 : (if containsSub (trim (lower c)) (trim (lower q)) then (1 : ℚ) else 0) ≤ 1 := by
        split <;> norm_num
      constructor
      · have := mul_nonneg hb0 (by norm_num : (0:ℚ) ≤ 6/10)
        have := mul_nonneg htc0 (by norm_num : (0:ℚ) ≤ 3/10)
        have := mul_nonneg hcc0 (by norm_num : (0:ℚ) ≤ 1/10)
        positivity
      · have e1 : (if containsSub (trim (lower c)) (trim (lower q)) then (1 : ℚ) else 0) * (6/10) ≤ 6/10 := by
          nlinarith
        have e2 : (shared : ℚ) / (qs.length : ℚ) * (3/10) ≤ 3/10 := by nlinarith
        have e3 : (shared : ℚ) / (cs.length : ℚ) * (1/10) ≤ 1/10 := by nlinarith
        linarith

lemma mem_insertDesc (e : ScoredEntry) (l : List ScoredEntry) (a : ScoredEntry) :
    a ∈ insertDesc e l ↔ a = e ∨ a ∈ l := by
  induction l with
  | nil => simp [insertDesc]
  | cons f fs ih =>
    simp only [insertDesc]
    split
    · simp [List.mem_cons]
    · simp only [List.mem_cons, ih]
      tauto

lemma sorted_insertDesc (e : ScoredEntry) (l : List ScoredEntry)
    (h : List.Sorted (fun a b : ScoredEntry => b.score ≤ a.score) l) :
    List.Sorted (fun a b : ScoredEntry => b.score ≤ a.score) (insertDesc e l) := by
  induction l with
  | nil => simp [insertDesc]
  | cons f fs ih =>
    simp only [insertDesc]
    rw [List.sorted_cons] at h
    obtain ⟨hf, hfs⟩ := h
    split
    · rename_i hfe
      rw [List.sorted_cons]
      refine ⟨?_, List.sorted_cons.mpr ⟨hf, hfs⟩⟩
      intro b hb
      rcases List.mem_cons.mp hb with hb | hb
      · subst hb; exact hfe
      · exact le_trans (hf b hb) hfe
    · rename_i hfe
      rw [List.sorted_cons]
      refine ⟨?_, ih hfs⟩
      intro b hb
      rcases (mem_insertDesc e fs b).mp hb with hb | hb
      · subst hb; exact le_of_lt (lt_of_not_ge hfe)
      · exact hf b hb

lemma sorted_sortDesc (l : List ScoredEntry) :
    List.Sorted (fun a b : ScoredEntry => b.score ≤ a.score) (sortDesc l) := by
  induction l with
  | nil => simp [sortDesc]
  | cons e es ih => exact sorted_insertDesc e (sortDesc es) ih

lemma mem_sortDesc (l : List ScoredEntry) (a : ScoredEntry) :
    a ∈ sortDesc l ↔ a ∈ l := by
  induction l with
  | nil => simp [sortDesc]
  | cons e es ih =>
    simp only [sortDesc, mem_insertDesc, ih, List.mem_cons]

/-- Claim C1: for every stored base and every query that trims non-empty,
the query succeeds and its match list is sorted non-increasing by score,
has length at most the clamped top_k, and contains no entry with score
zero or less. -/
theorem query_topk_sorted (store : Store) (id q : Str) (k : Option Int)
    (base : StoredKnowledgeBase)
    (h1 : findBase store id = some base) (h2 : trim q ≠ []) :
    ∃ resp, queryKnowledgeBase store id q k = .ok resp ∧
      List.Sorted (fun a b : KnowledgeChunkMatch => b.score ≤ a.score) resp.«matches» ∧
      resp.«matches».length ≤ (clampTopK k).toNat ∧
      ∀ m ∈ resp.«matches», 0 < m.score := by
  simp only [queryKnowledgeBase, h1]
  rw [if_neg h2]
  refine ⟨_, rfl, ?_, ?_, ?_⟩
  · rw [List.Sorted, List.pairwise_map]
    exact ((sorted_sortDesc _).sublist (List.take_sublist _ _))
  · rw [List.length_map]
    exact le_trans (List.length_take_le _ _) (le_refl _)
  · intro m hm
    rcases List.mem_map.mp hm with ⟨e, he, hme⟩
    have he2 : e ∈ sortDesc _ := List.take_subset _ _ he
    rw [mem_sortDesc] at he2
    have := (List.mem_filter.mp he2).2
    have hpos : 0 < e.score := of_decide_eq_true this
    rw [← hme]
    exact hpos

/-- Claim C1 witness: the property instantiated on the sample store with
query fox and top_k 5. -/
theorem query_topk_sorted_witness :
    findBase sampleStore ("kb1".toList) = some sampleBase ∧
    trim ("fox".toList) ≠ [] ∧
    (∃ resp, queryKnowledgeBase sampleStore ("kb1".toList) ("fox".toList) (some 5) = .ok resp ∧
      List.Sorted (fun a b : KnowledgeChunkMatch => b.score ≤ a.score) resp.«matches» ∧
      resp.«matches».length ≤ (clampTopK (some 5)).toNat ∧
      ∀ m ∈ resp.«matches», 0 < m.score) :=
  ⟨by decide, by decide,
    query_topk_sorted sampleStore ("kb1".toList) ("fox".toList) (some 5) sampleBase
      (by decide) (by decide)⟩

/-- Claim C5: queryKnowledgeBase rejects with NotFoundError exactly when
the base id is unknown, and an existing base queried with text that trims
to empty resolves successfully with an empty match list. -/
theorem query_notfound_empty (store : Store) (id q : Str) (k : Option Int) :
    (∀ e, queryKnowledgeBase store id q k = .error e ↔
      (findBase store id = none ∧ e = .notFound)) ∧
    (∀ base, findBase store id = some base → trim q = [] →
      queryKnowledgeBase store id q k =
        .ok { knowledge_base_id := id, query := trim q, «matches» := [] }) := by
  constructor
  · intro e
    simp only [queryKnowledgeBase]
    cases hfb : findBase store id with
    | none => simp [eq_comm]
    | some base =>
      simp only
      split
      · simp
      · simp
  · intro base hfb hq
    simp only [queryKnowledgeBase, hfb]
    rw [if_pos hq, hq]

/-- Claim C5 witness: an unknown id is rejected with NotFoundError, and an
empty query on the sample store succeeds with no matches. -/
theorem query_notfound_empty_witness :
    (queryKnowledgeBase sampleStore ("nope".toList) ("fox".toList) none = .error .notFound) ∧
    (queryKnowledgeBase sampleStore ("kb1".toList) ("  ".toList) (some 5) =
      .ok { knowledge_base_id := "kb1".toList, query := trim ("  ".toList), «matches» := [] }) :=
  ⟨((query_notfound_empty sampleStore ("nope".toList) ("fox".toList) none).1
      KBError.notFound).mpr ⟨by decide, rfl⟩,
    (query_notfound_empty sampleStore ("kb1".toList) ("  ".toList) (some 5)).2
      sampleBase (by decide) (by decide)⟩

/-- Claim C6: createKnowledgeBase fails with ValidationError exactly when
the name trims to empty; on success the returned detail carries the freshly
generated id, equal creation and update timestamps, ready = false, and an
empty document list. -/
theorem create_kb_spec (store : Store) (name : Str) (description : Option Str)
    (newId now : Str) :
    ((createKnowledgeBase store name description newId now).2 = .error .validation ↔
      trim name = []) ∧
    (trim name ≠ [] → ∃ d : KnowledgeBaseDetail,
      (createKnowledgeBase store name description newId now).2 = .ok d ∧
      d.id = newId ∧ d.created_at = now ∧ d.updated_at = now ∧
      d.created_at = d.updated_at ∧ d.ready = false ∧ d.documents = []) := by
  constructor
  · simp only [createKnowledgeBase]
    split
    · rename_i h; simpa using h
    · rename_i h; simpa using h
  · intro h
    simp only [createKnowledgeBase]
    rw [if_neg h]
    exact ⟨_, rfl, rfl, rfl, rfl, rfl, rfl, rfl⟩

/-- Claim C6 witness: a whitespace-only name is rejected, and a concrete
valid name produces a detail with the stated fields. -/
theorem create_kb_spec_witness :
    ((createKnowledgeBase sampleStore ("  ".toList) none ("id9".toList) ("t9".toList)).2 =
        .error .validation) ∧
    trim ("My KB".toList) ≠ [] ∧
    (∃ d : KnowledgeBaseDetail,
      (createKnowledgeBase sampleStore ("My KB".toList) none ("id9".toList) ("t9".toList)).2 =
        .ok d ∧
      d.id = "id9".toList ∧ d.created_at = "t9".toList ∧ d.updated_at = "t9".toList ∧
      d.created_at = d.updated_at ∧ d.ready = false ∧ d.documents = []) :=
  ⟨((create_kb_spec sampleStore ("  ".toList) none ("id9".toList) ("t9".toList)).1).mpr
      (by decide),
    by decide,
    (create_kb_spec sampleStore ("My KB".toList) none ("id9".toList) ("t9".toList)).2
      (by decide)⟩

lemma findBase_updateFirstBase (store : Store) (id : Str)
    (f : StoredKnowledgeBase → StoredKnowledgeBase) (b : StoredKnowledgeBase)
    (h : findBase store id = some b) (hid : (f b).id = b.id) :
    findBase (updateFirstBase store id f) id = some (f b) := by
  induction store with
  | nil => simp [findBase] at h
  | cons x xs ih =>
    simp only [findBase, List.find?] at h
    simp only [updateFirstBase]
    cases hx : (x.id == id) with
    | true =>
      rw [hx] at h
      simp only at h
      injection h with h
      subst h
      simp only [findBase, List.find?]
      have : ((f x).id == id) = true := by
        rw [hid]; exact hx
      rw [this]
    | false =>
      rw [hx] at h
      simp only at h
      simp only [findBase, List.find?, hx]
      exact ih h

/-- Claim C9: ingestText fails with NotFoundError when the base is unknown
and with ValidationError when the content trims to empty; on success it
appends exactly one document, whose chunks come from the chunker with the
effective parameters, and marks the base ready with a refreshed
updated_at. -/
theorem ingest_text_spec (store : Store) (id title content : Str)
    (cs co : Option Int) (newId gid now : Str) :
    (findBase store id = none →
      ingestText store id title content cs co newId gid now = ([], .error .notFound)) ∧
    (∀ base, findBase store id = some base → trim content = [] →
      ingestText store id title content cs co newId gid now = ([], .error .validation)) ∧
    (∀ base, findBase store id = some base → trim content ≠ [] →
      ∃ doc st2, ingestText store id title content cs co newId gid now =
          ([st2], .ok (toDocumentSummary doc)) ∧
        doc.chunks = chunkText gid content (max (cs.getD DEFAULT_CHUNK_SIZE) 100)
          (min (co.getD DEFAULT_CHUNK_OVERLAP) (max (cs.getD DEFAULT_CHUNK_SIZE) 100 - 1)) ∧
        findBase st2 id = some
          { base with
            documents := base.documents ++ [doc],
            updated_at := now, ready := true }) := by
  refine ⟨?_, ?_, ?_⟩
  · intro h
    simp only [ingestText, h]
  · intro base hfb hq
    simp only [ingestText, hfb]
    rw [if_pos hq]
  · intro base hfb hq
    simp only [ingestText, hfb]
    rw [if_neg hq]
    refine ⟨_, _, rfl, rfl, ?_⟩
    exact findBase_updateFirstBase store id _ base hfb rfl

/-- Claim C9 witness: ingesting concrete text into the sample store appends
one document and flips the base to ready with the new timestamp. -/
theorem ingest_text_spec_witness :
    findBase sampleStore ("kb1".toList) = some sampleBase ∧
    trim ("Flowport routes inference calls.".toList) ≠ [] ∧
    (∃ doc st2,
      ingestText sampleStore ("kb1".toList) ("T".toList)
          ("Flowport routes inference calls.".toList) none none
          ("d2".toList) ("g2".toList) ("t2".toList) =
        ([st2], .ok (toDocumentSummary doc)) ∧
      doc.chunks = chunkText ("g2".toList) ("Flowport routes inference calls.".toList)
        (max ((none : Option Int).getD DEFAULT_CHUNK_SIZE) 100)
        (min ((none : Option Int).getD DEFAULT_CHUNK_OVERLAP)
          (max ((none : Option Int).getD DEFAULT_CHUNK_SIZE) 100 - 1)) ∧
      findBase st2 ("kb1".toList) = some
        { sampleBase with
          documents := sampleBase.documents ++ [doc],
          updated_at := "t2".toList, ready := true }) :=
  ⟨by decide, by decide,
    (ingest_text_spec sampleStore ("kb1".toList) ("T".toList)
        ("Flowport routes inference calls.".toList) none none
        ("d2".toList) ("g2".toList) ("t2".toList)).2.2
      sampleBase (by decide) (by decide)⟩

/-- Claim C10: whenever a mutating store operation rejects with an error,
it has performed no save: the persisted store is left unchanged, no base
created and no document appended. -/
theorem mutating_error_no_save (store : Store) (name : Str) (description : Option Str)
    (newId now id title content gid : Str) (cs co : Option Int) (file : FileInput) :
    (∀ e, (createKnowledgeBase store name description newId now).2 = .error e →
      (createKnowledgeBase store name description newId now).1 = []) ∧
    (∀ e, (ingestText store id title content cs co newId gid now).2 = .error e →
      (ingestText store id title content cs co newId gid now).1 = []) ∧
    (∀ e, (ingestFile store id file cs co newId gid now).2 = .error e →
      (ingestFile store id file cs co newId gid now).1 = []) := by
  refine ⟨?_, ?_, ?_⟩
  · intro e he
    simp only [createKnowledgeBase] at he ⊢
    split at he
    · rename_i h; rw [if_pos h]
    · simp at he
  · intro e he
    simp only [ingestText] at he ⊢
    cases hfb : findBase store id with
    | none => simp [hfb]
    | some base =>
      rw [hfb] at he
      simp only at he ⊢
      split at he
      · rename_i h; rw [if_pos h]
      · simp at he
  · intro e he
    simp only [ingestFile] at he ⊢
    cases hfb : findBase store id with
    | none => simp [hfb]
    | some base =>
      rw [hfb] at he
      simp at he

/-- Claim C10 witness: a rejected creation (whitespace-only name) and a
rejected ingestion (unknown base id) both leave the save list empty. -/
theorem mutating_error_no_save_witness :
    ((createKnowledgeBase sampleStore ("  ".toList) none ("idA".toList) ("tA".toList)).2 =
        .error .validation ∧
      (createKnowledgeBase sampleStore ("  ".toList) none ("idA".toList) ("tA".toList)).1 = []) ∧
    ((ingestText sampleStore ("nope".toList) ("T".toList) ("hello".toList) none none
        ("idB".toList) ("gB".toList) ("tB".toList)).2 = .error .notFound ∧
      (ingestText sampleStore ("nope".toList) ("T".toList) ("hello".toList) none none
        ("idB".toList) ("gB".toList) ("tB".toList)).1 = []) :=
  ⟨⟨rfl, (mutating_error_no_save sampleStore ("  ".toList) none ("idA".toList) ("tA".toList)
      ("nope".toList) ("T".toList) ("hello".toList) ("gB".toList) none none
      ⟨[], [], 0, none⟩).1 .validation rfl⟩,
    ⟨rfl, (mutating_error_no_save sampleStore ("x".toList) none ("idB".toList) ("tB".toList)
      ("nope".toList) ("T".toList) ("hello".toList) ("gB".toList) none none
      ⟨[], [], 0, none⟩).2.1 .notFound rfl⟩⟩

lemma isPrefixL_iff (p : Str) : ∀ l, isPrefixL p l = true ↔ ∃ t, l = p ++ t := by
  induction p with
  | nil => intro l; simp [isPrefixL]
  | cons a as ih =>
    intro l
    cases l with
    | nil => simp [isPrefixL]
    | cons b bs =>
      simp only [isPrefixL, Bool.and_eq_true, beq_iff_eq, ih bs, List.cons_append]
      constructor
      · rintro ⟨rfl, t, rfl⟩
        exact ⟨t, rfl⟩
      · rintro ⟨t, ht⟩
        injection ht with h1 h2
        exact ⟨h1.symm, t, h2⟩

lemma containsSub_iff (p : Str) : ∀ l, containsSub l p = true ↔ ∃ u v, l = u ++ p ++ v := by
  intro l
  induction l with
  | nil =>
    simp only [containsSub, List.isEmpty_iff]
    constructor
    · rintro rfl
      exact ⟨[], [], rfl⟩
    · rintro ⟨u, v, h⟩
      rcases List.append_eq_nil.mp h.symm with ⟨h1, -⟩
      exact (List.append_eq_nil.mp h1).2
  | cons c t ih =>
    simp only [containsSub, Bool.or_eq_true, isPrefixL_iff, ih]
    constructor
    · rintro (⟨s, hs⟩ | ⟨u, v, huv⟩)
      · exact ⟨[], s, by simpa using hs⟩
      · exact ⟨c :: u, v, by simp [huv]⟩
    · rintro ⟨u, v, huv⟩
      cases u with
      | nil =>
        exact Or.inl ⟨v, by simpa using huv⟩
      | cons x u2 =>
        injection huv with h1 h2
        exact Or.inr ⟨u2, v, h2⟩

lemma alnum_not_ws {c : Char} (h : alnum c = true) : wsChar c = false := by
  simp only [alnum, Bool.or_eq_true, Bool.and_eq_true, decide_eq_true_eq] at h
  simp only [wsChar, Bool.or_eq_false_iff, decide_eq_false_iff_not]
  omega

lemma alnum_lcChar_fix {c : Char} (h : alnum c = true) : lcChar c = c := by
  simp only [alnum, Bool.or_eq_true, Bool.and_eq_true, decide_eq_true_eq] at h
  rw [lcChar, if_neg]
  omega

lemma head_dropWhile_ne (p : Char → Bool) :
    ∀ (l : Str) {c : Char} {t : Str}, List.dropWhile p l = c :: t → p c = false := by
  intro l
  induction l with
  | nil => intro c t h; simp at h
  | cons x xs ih =>
    intro c t h
    rw [List.dropWhile_cons] at h
    split at h
    · exact ih h
    · rename_i hx
      injection h with h1 _
      subst h1
      exact Bool.of_not_eq_true hx

lemma dropWhile_append_keep (c : Char) (z : Str) (hc : wsChar c = false) :
    ∀ α : Str, ∃ γ, (α ++ c :: z).dropWhile wsChar = γ ++ c :: z := by
  intro α
  induction α with
  | nil =>
    refine ⟨[], ?_⟩
    simp [List.dropWhile_cons, hc]
  | cons x xs ih =>
    rw [List.cons_append, List.dropWhile_cons]
    split
    · exact ih
    · exact ⟨x :: xs, rfl⟩

lemma runsAux_eq_nil_iff : ∀ (l cur : Str),
    runsAux l cur = [] ↔ cur = [] ∧ ∀ c ∈ l, alnum c = false := by
  intro l
  induction l with
  | nil =>
    intro cur
    simp only [runsAux]
    split
    · rename_i hcur
      simp only [List.isEmpty_iff] at hcur
      simp [hcur]
    · rename_i hcur
      simp only [List.isEmpty_iff] at hcur
      simp [hcur]
  | cons c t ih =>
    intro cur
    simp only [runsAux]
    split
    · rename_i hc
      rw [ih (c :: cur)]
      constructor
      · rintro ⟨h, -⟩; simp at h
      · rintro ⟨-, hall⟩
        have := hall c (List.mem_cons_self c t)
        rw [this] at hc
        simp at hc
    · rename_i hc
      have hcf : alnum c = false := Bool.of_not_eq_true hc
      split
      · rename_i hcur
        simp only [List.isEmpty_iff] at hcur
        rw [ih []]
        subst hcur
        simp [hcf]
      · rename_i hcur
        simp only [List.isEmpty_iff] at hcur
        constructor
        · intro h; simp at h
        · rintro ⟨h, -⟩; exact absurd h hcur

lemma tokenize_ne_nil_iff (l : Str) :
    tokenize l ≠ [] ↔ ∃ c ∈ lower l, alnum c = true := by
  rw [tokenize, Ne, runsAux_eq_nil_iff]
  simp [Bool.not_eq_false]

lemma trim_decomp (l : Str) :
    ∃ u v, l = u ++ trim l ++ v ∧
      (∀ c ∈ u, wsChar c = true) ∧ (∀ c ∈ v, wsChar c = true) := by
  refine ⟨l.takeWhile wsChar, ((l.dropWhile wsChar).reverse.takeWhile wsChar).reverse,
    ?_, ?_, ?_⟩
  · conv_lhs => rw [← List.takeWhile_append_dropWhile (p := wsChar) (l := l)]
    rw [List.append_assoc]
    congr 1
    conv_lhs => rw [← List.reverse_reverse (l.dropWhile wsChar),
      ← List.takeWhile_append_dropWhile (p := wsChar) (l := (l.dropWhile wsChar).reverse)]
    rw [List.reverse_append, trim]
  · exact fun c hc => List.mem_takeWhile_imp hc
  · intro c hc
    rw [List.mem_reverse] at hc
    exact List.mem_takeWhile_imp hc

lemma mem_trim_of_not_ws {l : Str} {c : Char} (hc : c ∈ l) (hw : wsChar c = false) :
    c ∈ trim l := by
  obtain ⟨u, v, hl, hu, hv⟩ := trim_decomp l
  rw [hl] at hc
  rcases List.mem_append.mp hc with hc | hc
  · rcases List.mem_append.mp hc with hc | hc
    · rw [hu c hc] at hw; cases hw
    · exact hc
  · rw [hv c hc] at hw; cases hw

lemma trim_head_not_ws {l : Str} {c : Char} {m : Str} (h : trim l = c :: m) :
    wsChar c = false := by
  have he : (l.dropWhile wsChar).reverse.dropWhile wsChar = (c :: m).reverse := by
    rw [← h, trim, List.reverse_reverse]
  have hd : l.dropWhile wsChar =
      ((l.dropWhile wsChar).reverse.takeWhile wsChar ++
        (l.dropWhile wsChar).reverse.dropWhile wsChar).reverse := by
    rw [List.takeWhile_append_dropWhile, List.reverse_reverse]
  rw [he, List.reverse_append, List.reverse_reverse] at hd
  exact head_dropWhile_ne wsChar l (by rw [hd, List.cons_append])

lemma trim_last_not_ws {l : Str} {m : Str} {c : Char} (h : trim l = m ++ [c]) :
    wsChar c = false := by
  have he : (l.dropWhile wsChar).reverse.dropWhile wsChar = (m ++ [c]).reverse := by
    rw [← h, trim, List.reverse_reverse]
  rw [List.reverse_append, List.reverse_singleton, List.singleton_append] at he
  exact head_dropWhile_ne wsChar _ he

lemma containsSub_trim_middle (T : Str) (hne : T ≠ [])
    (hh : ∀ c m, T = c :: m → wsChar c = false)
    (hl : ∀ m c, T = m ++ [c] → wsChar c = false) :
    ∀ α β, containsSub (trim (α ++ T ++ β)) T = true := by
  intro α β
  obtain ⟨th, tt, hT⟩ := List.exists_cons_of_ne_nil hne
  obtain ⟨tm, tl, hT2⟩ := (List.eq_nil_or_concat T).resolve_left hne
  rw [List.concat_eq_append] at hT2
  have hth : wsChar th = false := hh th tt hT
  have htl : wsChar tl = false := hl tm tl hT2
  obtain ⟨g, hg⟩ := dropWhile_append_keep th (tt ++ β) hth α
  have hg2 : (α ++ T ++ β).dropWhile wsChar = g ++ T ++ β := by
    have hsplit : α ++ T ++ β = α ++ th :: (tt ++ β) := by
      rw [hT]; simp
    rw [hsplit, hg, hT]
    simp
  have hrev : ((α ++ T ++ β).dropWhile wsChar).reverse =
      β.reverse ++ tl :: (tm.reverse ++ g.reverse) := by
    rw [hg2, hT2]
    simp [List.reverse_append]
  obtain ⟨d, hd⟩ := dropWhile_append_keep tl (tm.reverse ++ g.reverse) htl β.reverse
  rw [containsSub_iff]
  refine ⟨g, d.reverse, ?_⟩
  rw [trim, hrev, hd]
  rw [hT2]
  simp [List.reverse_append]

lemma score_le_no_bonus (q c : Str)
    (h : containsSub (trim (lower c)) (trim (lower q)) = false) :
    scoreChunk q c ≤ 2 / 5 := by
  simp only [scoreChunk]
  split
  · norm_num
  · split
    · norm_num
    · rename_i hout hin
      set qs := (tokenize (trim (lower q))).dedup with hqs
      set cs := (tokenize (trim (lower c))).dedup with hcs
      set shared := (qs.filter (fun t => decide (t ∈ cs))).length with hsh
      have h1 : shared ≤ qs.length := List.length_filter_le _ _
      have h2 : shared ≤ cs.length := shared_le_chunkSet _ _
      have htc0 : (0 : ℚ) ≤ (shared : ℚ) / (qs.length : ℚ) :=
        div_nonneg (Nat.cast_nonneg _) (Nat.cast_nonneg _)
      have hcc0 : (0 : ℚ) ≤ (shared : ℚ) / (cs.length : ℚ) :=
        div_nonneg (Nat.cast_nonneg _) (Nat.cast_nonneg _)
      have hq : tokenize (trim (lower q)) ≠ [] := fun hh => hin (Or.inl hh)
      have hc : tokenize (trim (lower c)) ≠ [] := fun hh => hin (Or.inr hh)
      have hqlen : 0 < qs.length := by
        rw [List.length_pos]
        intro hnil
        exact hq ((List.dedup_eq_nil _).mp hnil)
      have hclen : 0 < cs.length := by
        rw [List.length_pos]
        intro hnil
        exact hc ((List.dedup_eq_nil _).mp hnil)
      have hqpos : (0 : ℚ) < qs.length := by exact_mod_cast hqlen
      have hcpos : (0 : ℚ) < cs.length := by exact_mod_cast hclen
      have htc1 : (shared : ℚ) / (qs.length : ℚ) ≤ 1 := by
        rw [div_le_one hqpos]
        exact_mod_cast h1
      have hcc1 : (shared : ℚ) / (cs.length : ℚ) ≤ 1 := by
        rw [div_le_one hcpos]
        exact_mod_cast h2
      rw [h]
      simp only [Bool.false_eq_true, if_false]
      have e2 : (shared : ℚ) / (qs.length : ℚ) * (3 / 10) ≤ 3 / 10 := by nlinarith
      have e3 : (shared : ℚ) / (cs.length : ℚ) * (1 / 10) ≤ 1 / 10 := by nlinarith
      linarith

lemma score_ge_bonus (q c : Str)
    (hqt : trim (lower q) ≠ [])
    (hsub : containsSub (trim (lower c)) (trim (lower q)) = true)
    (hq : tokenize (trim (lower q)) ≠ [])
    (hc : tokenize (trim (lower c)) ≠ []) :
    3 / 5 ≤ scoreChunk q c := by
  have hct : trim (lower c) ≠ [] := by
    intro hnil
    rw [hnil] at hsub
    simp only [containsSub, List.isEmpty_iff] at hsub
    exact hqt hsub
  simp only [scoreChunk]
  rw [if_neg (not_or.mpr ⟨hqt, hct⟩), if_neg (not_or.mpr ⟨hq, hc⟩), if_pos hsub]
  have htc0 : (0 : ℚ) ≤
      ((((tokenize (trim (lower q))).dedup.filter
        (fun t => decide (t ∈ (tokenize (trim (lower c))).dedup))).length : ℚ) /
        ((tokenize (trim (lower q))).dedup.length : ℚ)) :=
    div_nonneg (Nat.cast_nonneg _) (Nat.cast_nonneg _)
  have hcc0 : (0 : ℚ) ≤
      ((((tokenize (trim (lower q))).dedup.filter
        (fun t => decide (t ∈ (tokenize (trim (lower c))).dedup))).length : ℚ) /
        ((tokenize (trim (lower c))).dedup.length : ℚ)) :=
    div_nonneg (Nat.cast_nonneg _) (Nat.cast_nonneg _)
  linarith

/-- Claim C4 counterexample: as stated the monotonicity claim fails twice.
A query with no alphanumeric token (here three exclamation marks) scores 0
with and without insertion, so the increase is not strict; and a chunk
HELLO already matches the query hello after case folding, so inserting the
query verbatim strictly lowers the score from 1 to 3/5. In both cases the
raw content does not contain the lowercased trimmed query. -/
theorem score_monotone_cex :
    (containsSub ("a".toList) (trim (lower ("!!!".toList))) = false ∧
      ¬ scoreChunk ("!!!".toList) ("a".toList ++ "!!!".toList) >
          scoreChunk ("!!!".toList) ("a".toList)) ∧
    (containsSub ("HELLO".toList) (trim (lower ("hello".toList))) = false ∧
      scoreChunk ("hello".toList) ("hello".toList ++ "HELLO".toList) <
        scoreChunk ("hello".toList) ("HELLO".toList)) := by
  have s1 : scoreChunk ("!!!".toList) ("a!!!".toList) = 0 := by
    simp only [scoreChunk]
    rw [if_neg (by decide), if_pos (by decide)]
  have s2 : scoreChunk ("!!!".toList) ("a".toList) = 0 := by
    simp only [scoreChunk]
    rw [if_neg (by decide), if_pos (by decide)]
  have s3 : scoreChunk ("hello".toList) ("HELLO".toList) = 1 := by
    have e1 : trim (lower ("hello".toList)) = "hello".toList := by decide
    have e2 : trim (lower ("HELLO".toList)) = "hello".toList := by decide
    have e3 : tokenize ("hello".toList) = ["hello".toList] := by decide
    have e4 : (["hello".toList] : List Str).dedup = ["hello".toList] := by decide
    have e5 : containsSub ("hello".toList) ("hello".toList) = true := by decide
    have e6 : (["hello".toList] : List Str).filter
        (fun t => decide (t ∈ (["hello".toList] : List Str))) = ["hello".toList] := by decide
    simp only [scoreChunk, e1, e2, e3, e4, e5, e6]
    norm_num
    decide
  have s4 : scoreChunk ("hello".toList) ("helloHELLO".toList) = 3 / 5 := by
    have e1 : trim (lower ("hello".toList)) = "hello".toList := by decide
    have e2 : trim (lower ("helloHELLO".toList)) = "hellohello".toList := by decide
    have e3 : tokenize ("hello".toList) = ["hello".toList] := by decide
    have e4 : tokenize ("hellohello".toList) = ["hellohello".toList] := by decide
    have e5 : (["hello".toList] : List Str).dedup = ["hello".toList] := by decide
    have e6 : (["hellohello".toList] : List Str).dedup = ["hellohello".toList] := by decide
    have e7 : containsSub ("hellohello".toList) ("hello".toList) = true := by decide
    have e8 : (["hello".toList] : List Str).filter
        (fun t => decide (t ∈ (["hellohello".toList] : List Str))) = [] := by decide
    simp only [scoreChunk, e1, e2, e3, e4, e5, e6, e7, e8]
    norm_num
    decide
  refine ⟨⟨by decide, ?_⟩, ⟨by decide, ?_⟩⟩
  · have hx : "a".toList ++ "!!!".toList = "a!!!".toList := rfl
    rw [hx, s1, s2]
    norm_num
  · have hx : "hello".toList ++ "HELLO".toList = "helloHELLO".toList := rfl
    rw [hx, s4, s3]
    norm_num

/-- Claim C4 amended: if the query has at least one alphanumeric token and
the lowercased trimmed content of C = A ++ B does not contain the
lowercased trimmed query as a substring, then inserting the exact query
string verbatim into C strictly increases the chunk score. -/
theorem score_monotone_amended (q A B : Str)
    (hq : tokenize q ≠ [])
    (hnc : containsSub (trim (lower (A ++ B))) (trim (lower q)) = false) :
    scoreChunk q (A ++ B) < scoreChunk q (A ++ q ++ B) := by
  obtain ⟨c, hcl, hca⟩ := (tokenize_ne_nil_iff q).mp hq
  have hcw : wsChar c = false := alnum_not_ws hca
  have hcT : c ∈ trim (lower q) := mem_trim_of_not_ws hcl hcw
  have hTne : trim (lower q) ≠ [] := by
    intro hnil
    rw [hnil] at hcT
    simp at hcT
  obtain ⟨u, v, hlq, hu, hv⟩ := trim_decomp (lower q)
  have hlow : lower (A ++ q ++ B) =
      (lower A ++ u) ++ trim (lower q) ++ (v ++ lower B) := by
    calc lower (A ++ q ++ B) = lower A ++ lower q ++ lower B := by
          simp [lower, List.map_append]
      _ = lower A ++ (u ++ trim (lower q) ++ v) ++ lower B := by rw [← hlq]
      _ = (lower A ++ u) ++ trim (lower q) ++ (v ++ lower B) := by
          simp [List.append_assoc]
  have hsub2 : containsSub (trim (lower (A ++ q ++ B))) (trim (lower q)) = true := by
    rw [hlow]
    exact containsSub_trim_middle (trim (lower q)) hTne
      (fun ch m hh => trim_head_not_ws hh)
      (fun m ch hh => trim_last_not_ws hh) _ _
  have hql : c ∈ lower (trim (lower q)) := by
    have hmem := List.mem_map_of_mem lcChar hcT
    rw [alnum_lcChar_fix hca] at hmem
    exact hmem
  have hqtok : tokenize (trim (lower q)) ≠ [] :=
    (tokenize_ne_nil_iff _).mpr ⟨c, hql, hca⟩
  have hcl2 : c ∈ lower (A ++ q ++ B) := by
    rw [hlow]
    exact List.mem_append.mpr (Or.inl (List.mem_append.mpr (Or.inr hcT)))
  have hctrim : c ∈ trim (lower (A ++ q ++ B)) := mem_trim_of_not_ws hcl2 hcw
  have hctok : tokenize (trim (lower (A ++ q ++ B))) ≠ [] := by
    refine (tokenize_ne_nil_iff _).mpr ⟨c, ?_, hca⟩
    have hmem := List.mem_map_of_mem lcChar hctrim
    rw [alnum_lcChar_fix hca] at hmem
    exact hmem
  calc scoreChunk q (A ++ B) ≤ 2 / 5 := score_le_no_bonus q (A ++ B) hnc
    _ < 3 / 5 := by norm_num
    _ ≤ scoreChunk q (A ++ q ++ B) :=
        score_ge_bonus q (A ++ q ++ B) hTne hsub2 hqtok hctok

/-- Claim C4 amended witness: inserting fox into a chunk that lacks it
strictly increases the score. -/
theorem score_monotone_amended_witness :
    tokenize ("fox".toList) ≠ [] ∧
    containsSub (trim (lower ("the quick dog".toList ++ "".toList)))
      (trim (lower ("fox".toList))) = false ∧
    scoreChunk ("fox".toList) ("the quick dog".toList ++ "".toList) <
      scoreChunk ("fox".toList) ("the quick dog".toList ++ "fox".toList ++ "".toList) :=
  ⟨by decide, by decide,
    score_monotone_amended ("fox".toList) ("the quick dog".toList) ("".toList)
      (by decide) (by decide)⟩

end Flowport
